import Mathlib

/-!
Verification of the VidiWeave video-creator core (`src/components/VideoCreator.tsx`).

The development shallowly embeds the data model and the operations of the
component: the overlay-effect record and its construction defaults
(`addOverlayEffect`), the list/selection mutators (`updateEffect`,
`removeEffect`), the per-frame animation evaluator (`applyEffectAnimation`),
the per-frame scene painting performed inside the capture loop, the capture
run (`createVideoWithAudio`) and the pre-flight validation of `generateVideo`.
Machine floats are modelled by `ℚ` for stored state and by `ℝ` where the code
evaluates `Math.sin`.
-/

namespace Vid

/-- The `type` tag of an overlay effect (`OverlayEffect['type']` in the source). -/
inductive EffectType
  | text
  | shape
  | image
  | soundwave
  | sparkle
deriving DecidableEq, Repr

/-- The `shape` variant of a shape effect. -/
inductive ShapeKind
  | circle
  | square
  | triangle
  | star
  | heart
deriving DecidableEq, Repr

/-- The `animation` tag of an overlay effect. -/
inductive AnimKind
  | pulse
  | slide
  | rotate
  | none
deriving DecidableEq, Repr

/-- The `OverlayEffect` interface of the source, parametrised by the numeric
type: `ℚ` models stored state, `ℝ` models values produced with `Math.sin`.
Optional interface members are `Option`-valued. -/
structure OverlayEffect (α : Type) where
  type : EffectType
  id : String
  x : α
  y : α
  opacity : α
  color : Option String := Option.none
  text : Option String := Option.none
  fontSize : Option α := Option.none
  fontFamily : Option String := Option.none
  shape : Option ShapeKind := Option.none
  size : Option α := Option.none
  imageUrl : Option String := Option.none
  animation : Option AnimKind := Option.none
  soundwaveColor : Option String := Option.none
  soundwaveThickness : Option α := Option.none
  sparkleDensity : Option α := Option.none
  sparkleSize : Option α := Option.none
deriving DecidableEq, Repr

/-- The `VideoData` record assembled by `generateVideo`.  The formatted
megabyte string of the source is represented by the underlying byte count. -/
structure VideoData where
  id : String
  title : String
  thumbnail : String
  duration : ℤ
  sizeBytes : ℕ
deriving DecidableEq, Repr

/-- The component state touched by the operations under verification:
upload presence, generation bookkeeping, history, and the effect list with
its selection. -/
structure CreatorState where
  selectedImage : Bool
  selectedAudio : Bool
  imagePreview : String
  isGenerating : Bool
  generationProgress : ℕ
  generatedVideo : Option VideoData
  videoHistory : List VideoData
  videoTitle : String
  overlayEffects : List (OverlayEffect ℚ)
  selectedEffect : Option (OverlayEffect ℚ)
deriving DecidableEq, Repr

/-- The component's initial state (`useState` initialisers). -/
def initialState : CreatorState where
  selectedImage := false
  selectedAudio := false
  imagePreview := ""
  isGenerating := false
  generationProgress := 0
  generatedVideo := Option.none
  videoHistory := []
  videoTitle := "My Video"
  overlayEffects := []
  selectedEffect := Option.none

/-- The effect built by `addOverlayEffect`: the common literal followed by the
per-type default switch.  `now` is the millisecond clock value read by
`Date.now()`; the id is its decimal string. -/
def newOverlayEffect (ty : EffectType) (now : ℕ) : OverlayEffect ℚ :=
  let base : OverlayEffect ℚ :=
    { type := ty
      id := Nat.repr now
      x := 50
      y := 50
      opacity := 8/10
      color := some "#ffffff"
      animation := some AnimKind.none }
  match ty with
  | EffectType.text =>
      { base with text := some "Your Text Here", fontSize := some 24,
                  fontFamily := some "Arial" }
  | EffectType.shape =>
      { base with shape := some ShapeKind.circle, size := some 50 }
  | EffectType.image =>
      { base with imageUrl := some "" }
  | EffectType.soundwave =>
      { base with soundwaveColor := some "#00ffff", soundwaveThickness := some 2 }
  | EffectType.sparkle =>
      { base with sparkleDensity := some 50, sparkleSize := some 3,
                  color := some "#ffff00" }

/-- `addOverlayEffect`: append the freshly built effect and select it. -/
def addOverlayEffect (ty : EffectType) (now : ℕ) (s : CreatorState) : CreatorState :=
  let e := newOverlayEffect ty now
  { s with overlayEffects := s.overlayEffects ++ [e], selectedEffect := some e }

/-- A `Partial<OverlayEffect>` argument of `updateEffect`: present fields
override, absent fields keep the old value (object-spread semantics). -/
structure EffectUpdates where
  x : Option ℚ := Option.none
  y : Option ℚ := Option.none
  opacity : Option ℚ := Option.none
  color : Option String := Option.none
  text : Option String := Option.none
  fontSize : Option ℚ := Option.none
  fontFamily : Option String := Option.none
  shape : Option ShapeKind := Option.none
  size : Option ℚ := Option.none
  imageUrl : Option String := Option.none
  animation : Option AnimKind := Option.none
  soundwaveColor : Option String := Option.none
  soundwaveThickness : Option ℚ := Option.none
  sparkleDensity : Option ℚ := Option.none
  sparkleSize : Option ℚ := Option.none
deriving DecidableEq, Repr

/-- `{ ...effect, ...updates }`: each field present in `updates` replaces the
stored field. -/
def applyUpdates (e : OverlayEffect ℚ) (u : EffectUpdates) : OverlayEffect ℚ where
  type := e.type
  id := e.id
  x := u.x.getD e.x
  y := u.y.getD e.y
  opacity := u.opacity.getD e.opacity
  color := (u.color.map some).getD e.color
  text := (u.text.map some).getD e.text
  fontSize := (u.fontSize.map some).getD e.fontSize
  fontFamily := (u.fontFamily.map some).getD e.fontFamily
  shape := (u.shape.map some).getD e.shape
  size := (u.size.map some).getD e.size
  imageUrl := (u.imageUrl.map some).getD e.imageUrl
  animation := (u.animation.map some).getD e.animation
  soundwaveColor := (u.soundwaveColor.map some).getD e.soundwaveColor
  soundwaveThickness := (u.soundwaveThickness.map some).getD e.soundwaveThickness
  sparkleDensity := (u.sparkleDensity.map some).getD e.sparkleDensity
  sparkleSize := (u.sparkleSize.map some).getD e.sparkleSize

/-- `updateEffect(id, updates)`: map the spread over the matching list entry
and mirror the updates into the selection when it references `id`. -/
def updateEffect (id : String) (u : EffectUpdates) (s : CreatorState) : CreatorState :=
  { s with
    overlayEffects :=
      s.overlayEffects.map fun e => if e.id = id then applyUpdates e u else e
    selectedEffect :=
      match s.selectedEffect with
      | some sel => if sel.id = id then some (applyUpdates sel u) else some sel
      | Option.none => Option.none }

/-- `removeEffect(id)`: filter the entry out and clear a selection that
references `id`. -/
def removeEffect (id : String) (s : CreatorState) : CreatorState :=
  { s with
    overlayEffects := s.overlayEffects.filter fun e => e.id ≠ id
    selectedEffect :=
      match s.selectedEffect with
      | some sel => if sel.id = id then Option.none else some sel
      | Option.none => Option.none }

/-- One public effect-list operation, for reachability statements. -/
inductive EffectOp
  | add (ty : EffectType) (now : ℕ)
  | update (id : String) (u : EffectUpdates)
  | remove (id : String)
deriving DecidableEq, Repr

/-- Interpret one public operation on the component state. -/
def applyOp (s : CreatorState) (op : EffectOp) : CreatorState :=
  match op with
  | EffectOp.add ty now => addOverlayEffect ty now s
  | EffectOp.update id u => updateEffect id u s
  | EffectOp.remove id => removeEffect id s

/-- Interpret a sequence of public operations, left to right. -/
def applyOps (s : CreatorState) (ops : List EffectOp) : CreatorState :=
  ops.foldl applyOp s

/-! ### The capture run (`createVideoWithAudio`, lines 480–592) -/

/-- The host behaviour a `createVideoWithAudio` run observes: canvas-context
availability, image load success, the result of `decodeAudioData` (the
decoded buffer's duration, or failure), and the byte sizes of the chunks the
recorder emits in `dataavailable` events before it stops. -/
structure CaptureEnv where
  ctxAvailable : Bool
  imageLoads : Bool
  decodedDuration : Option ℚ
  chunkSizes : List ℕ
deriving DecidableEq, Repr

/-- A rejection of the capture promise, tagged by the throwing step. -/
inductive CaptureError
  | canvasContext
  | imageLoad
  | audioDecode
deriving DecidableEq, Repr

/-- The value the capture promise resolves with: the assembled blob's byte
size and the reported duration. -/
structure CaptureOutcome where
  videoBlobSize : ℕ
  duration : ℚ
deriving DecidableEq, Repr

/-- `createVideoWithAudio`: any throw before the recorder stops rejects the
promise; otherwise `onstop` assembles the pushed chunks (`ondataavailable`
keeps only chunks with `size > 0`) into one blob and resolves with it
together with the decoded audio duration. -/
def createVideoWithAudio (env : CaptureEnv) : Except CaptureError CaptureOutcome :=
  if ¬env.ctxAvailable then Except.error CaptureError.canvasContext
  else if ¬env.imageLoads then Except.error CaptureError.imageLoad
  else
    match env.decodedDuration with
    | Option.none => Except.error CaptureError.audioDecode
    | some d => Except.ok ⟨(env.chunkSizes.filter fun c => 0 < c).sum, d⟩

/-- One observable step of the capture run's start-and-loop section. -/
inductive CaptureEvent
  | startEncoder
  | startAudio
  | tick (t : ℚ)
  | stopEncoder (t : ℚ)
deriving DecidableEq, Repr

/-- Index of the first animation callback whose elapsed time reaches the
audio duration, with ticks every `Δ` seconds starting at elapsed `0`. -/
def stopTickIndex (D Δ : ℚ) : ℕ := (⌈D / Δ⌉).toNat

/-- The event sequence of lines 545–586: `mediaRecorder.start`, then
`audioSource.start(0)`, then the `animate` callbacks.  Each callback with
elapsed `< D` renders a frame (a `tick`); the first callback with elapsed
`≥ D` calls `mediaRecorder.stop()` and schedules nothing further. -/
def captureEvents (D Δ : ℚ) : List CaptureEvent :=
  [CaptureEvent.startEncoder, CaptureEvent.startAudio]
    ++ (List.range (stopTickIndex D Δ)).map
        (fun k : ℕ => CaptureEvent.tick ((k : ℚ) * Δ))
    ++ [CaptureEvent.stopEncoder ((stopTickIndex D Δ : ℚ) * Δ)]

/-- Recogniser for the encoder-stop event. -/
def isStopEvent : CaptureEvent → Bool
  | CaptureEvent.stopEncoder _ => true
  | _ => false

/-! ### Per-frame scene painting (`animate` body, lines 559–581) -/

/-- JavaScript integer truncation (toward zero) on rationals. -/
def qtrunc (x : ℚ) : ℤ := if 0 ≤ x then ⌊x⌋ else ⌈x⌉

/-- The JavaScript `%` operator on rationals (sign follows the dividend). -/
def jsModQ (a b : ℚ) : ℚ := a - b * qtrunc (a / b)

/-- One drawing command of a frame, recording the rational arguments its
transcendental parameters are computed from. -/
inductive DrawCmd
  | clear
  | background (progress : ℚ)
  | flashFill (progress : ℚ)
  | overlays (elapsed : ℚ)
deriving DecidableEq, Repr

/-- The command sequence of one `animate` body on a rendering tick: clear,
background image with the breathing zoom, the flash fill when
`elapsed % 0.5 < 0.25`, then the overlay effects. -/
def renderFrame (elapsed totalDuration : ℚ) : List DrawCmd :=
  let progress := elapsed / totalDuration
  [DrawCmd.clear, DrawCmd.background progress]
    ++ (if jsModQ elapsed (1/2) < 1/4 then [DrawCmd.flashFill progress] else [])
    ++ [DrawCmd.overlays elapsed]

/-- The alpha the source requests for the flash fill:
`Math.sin(progress * Math.PI * 8) * 0.1` (line 576). -/
noncomputable def flashFillAlpha (progress : ℚ) : ℝ :=
  Real.sin ((progress : ℝ) * Real.pi * 8) * (1/10)

/-- Modelled from the spec: the flash alpha as §4.3 words it,
`|sin(8π·progress)|·0.1`, for comparison with `flashFillAlpha`. -/
noncomputable def specFlashAlpha (progress : ℚ) : ℝ :=
  |Real.sin (8 * Real.pi * (progress : ℝ))| * (1/10)

/-! ### Animation evaluation (`applyEffectAnimation`, lines 338–360) -/

/-- JavaScript integer truncation (toward zero) on reals. -/
noncomputable def rtrunc (x : ℝ) : ℤ := if 0 ≤ x then ⌊x⌋ else ⌈x⌉

/-- The JavaScript `%` operator on reals (sign follows the dividend). -/
noncomputable def jsModR (a b : ℝ) : ℝ := a - b * rtrunc (a / b)

/-- `applyEffectAnimation(effect, elapsed)`: return the effect unchanged when
the animation tag is absent or `'none'`; otherwise build a copy, compute
`progress = elapsed % 3 / 3`, and overwrite the animated attributes on the
copy.  The `if (effect.size)` truthiness test skips a missing or zero size. -/
noncomputable def applyEffectAnimation (e : OverlayEffect ℝ) (elapsed : ℝ) :
    OverlayEffect ℝ :=
  if e.animation = Option.none ∨ e.animation = some AnimKind.none then e
  else
    let progress := jsModR elapsed 3 / 3
    match e.animation with
    | some AnimKind.pulse =>
        let e1 := { e with
          opacity := 7/10 + 3/10 * Real.sin (progress * Real.pi * 2) }
        match e.size with
        | some s =>
            if s = 0 then e1
            else { e1 with
              size := some (s * (9/10 + 2/10 * Real.sin (progress * Real.pi * 2))) }
        | Option.none => e1
    | some AnimKind.slide =>
        { e with x := e.x + 10 * Real.sin (progress * Real.pi * 2) }
    | _ => e

/-- The observable footprint of one `applyEffectAnimation` call: the state
of the argument object after the call returns, and the returned object. -/
structure AnimCall where
  effectAfter : OverlayEffect ℝ
  ret : OverlayEffect ℝ

/-- Statement-by-statement model of the `applyEffectAnimation` body as a
call on a mutable-object heap: the early exit returns the argument object
itself, every other path allocates the spread copy `animatedEffect` and
writes only to that copy, returning it. -/
noncomputable def applyEffectAnimationCall (e : OverlayEffect ℝ) (elapsed : ℝ) :
    AnimCall :=
  if e.animation = Option.none ∨ e.animation = some AnimKind.none then
    { effectAfter := e, ret := e }
  else
    let animatedEffect := e
    let progress := jsModR elapsed 3 / 3
    match e.animation with
    | some AnimKind.pulse =>
        let animatedEffect := { animatedEffect with
          opacity := 7/10 + 3/10 * Real.sin (progress * Real.pi * 2) }
        let animatedEffect :=
          match e.size with
          | some s =>
              if s = 0 then animatedEffect
              else { animatedEffect with
                size := some (s * (9/10 + 2/10 * Real.sin (progress * Real.pi * 2))) }
          | Option.none => animatedEffect
        { effectAfter := e, ret := animatedEffect }
    | some AnimKind.slide =>
        let animatedEffect := { animatedEffect with
          x := animatedEffect.x + 10 * Real.sin (progress * Real.pi * 2) }
        { effectAfter := e, ret := animatedEffect }
    | _ => { effectAfter := e, ret := animatedEffect }

/-! ### `generateVideo` (lines 220–271) -/

/-- An observable action of a `generateVideo` call. -/
inductive GenEvent
  | toastErrorMissing
  | progressStep (p : ℕ)
  | captureRun
  | toastSuccess
  | toastErrorFailed
deriving DecidableEq, Repr

/-- The six simulated progress percentages of `generateVideo`. -/
def progressSteps : List ℕ := [10, 25, 40, 60, 80, 100]

/-- JavaScript `Math.round` (round half toward positive infinity). -/
def jsRound (q : ℚ) : ℤ := ⌊q + 1/2⌋

/-- `generateVideo`: fail pre-flight with the missing-input toast when either
upload is absent, touching nothing else; otherwise run the progress steps,
run the capture, and either record the new video (prepending it to the
history) or surface the failure toast — resetting the generation flag and
progress in the `finally` block either way. -/
def generateVideo (env : CaptureEnv) (now : ℕ) (s : CreatorState) :
    CreatorState × List GenEvent :=
  if ¬s.selectedImage ∨ ¬s.selectedAudio then
    (s, [GenEvent.toastErrorMissing])
  else
    let stepEvents := progressSteps.map GenEvent.progressStep
    match createVideoWithAudio env with
    | Except.error _ =>
        ({ s with isGenerating := false, generationProgress := 0 },
         stepEvents ++ [GenEvent.captureRun, GenEvent.toastErrorFailed])
    | Except.ok o =>
        let nv : VideoData :=
          { id := Nat.repr now
            title := if s.videoTitle = "" then
                       "Video " ++ Nat.repr (s.videoHistory.length + 1)
                     else s.videoTitle
            thumbnail := s.imagePreview
            duration := jsRound o.duration
            sizeBytes := o.videoBlobSize }
        ({ s with isGenerating := false, generationProgress := 0,
                  generatedVideo := some nv,
                  videoHistory := nv :: s.videoHistory },
         stepEvents ++ [GenEvent.captureRun, GenEvent.toastSuccess])

/-! ### Derived predicates used by the statements -/

/-- A sequence of `addOverlayEffect` calls, each with its type argument and
the millisecond clock value `Date.now()` read during the call. -/
def addCalls (calls : List (EffectType × ℕ)) (s : CreatorState) : CreatorState :=
  calls.foldl (fun st c => addOverlayEffect c.1 c.2 st) s

/-- Every stored baseline opacity (list entries and the selection) lies in
`[0,1]`. -/
def opacityInRange (s : CreatorState) : Prop :=
  (∀ e ∈ s.overlayEffects, 0 ≤ e.opacity ∧ e.opacity ≤ 1) ∧
  (∀ e, s.selectedEffect = some e → 0 ≤ e.opacity ∧ e.opacity ≤ 1)

/-- The opacity carried by an operation, when present, lies in `[0,1]`
(all UI call sites pass `value / 100` with `value ∈ [0,100]`). -/
def opUpdatesInRange : EffectOp → Prop
  | EffectOp.update _ u => ∀ v, u.opacity = some v → 0 ≤ v ∧ v ≤ 1
  | _ => True

/-- The ordering and termination facts of one capture run's event sequence:
the encoder starts first, audio playback second, every rendering tick comes
after both and carries an elapsed time strictly below the duration, and the
encoder is stopped exactly once, at an elapsed time in
`[totalDuration, totalDuration + Δ)`. -/
def captureOrderingOk (D Δ : ℚ) : Prop :=
  (captureEvents D Δ)[0]? = some CaptureEvent.startEncoder ∧
  (captureEvents D Δ)[1]? = some CaptureEvent.startAudio ∧
  (∀ i t, (captureEvents D Δ)[i]? = some (CaptureEvent.tick t) → 2 ≤ i) ∧
  (∀ t, CaptureEvent.tick t ∈ captureEvents D Δ → 0 ≤ t ∧ t < D) ∧
  (captureEvents D Δ).countP isStopEvent = 1 ∧
  (∀ t, CaptureEvent.stopEncoder t ∈ captureEvents D Δ → D ≤ t ∧ t < D + Δ)

/-! ### Decimal representation of the millisecond clock

`Date.now().toString()` is modelled by `Nat.repr`.  The following lemmas
relate `Nat.repr` to `Nat.digits` and derive its injectivity, which is what
distinct clock readings give distinct effect ids. -/

theorem toDigitsCore_eq_digits (f : ℕ) :
    ∀ (n : ℕ) (ds : List Char), 0 < n → n < f →
      Nat.toDigitsCore 10 f n ds =
        ((Nat.digits 10 n).map Nat.digitChar).reverse ++ ds := by
  induction f with
  | zero => intro n ds hn hf; omega
  | succ f ih =>
    intro n ds hn hf
    rw [Nat.toDigitsCore]
    by_cases h10 : n / 10 = 0
    · have hlt : n < 10 := by omega
      rw [if_pos h10, Nat.digits_def' (by norm_num : (1:ℕ) < 10) hn, h10]
      simp [Nat.mod_eq_of_lt hlt]
    · rw [if_neg h10]
      have hdiv_pos : 0 < n / 10 := Nat.pos_of_ne_zero h10
      have hdiv_lt : n / 10 < f := by
        have : n / 10 < n := Nat.div_lt_self hn (by norm_num)
        omega
      rw [ih (n / 10) (Nat.digitChar (n % 10) :: ds) hdiv_pos hdiv_lt,
        Nat.digits_def' (by norm_num : (1:ℕ) < 10) hn]
      simp

theorem repr_eq_digits (n : ℕ) (hn : 0 < n) :
    Nat.repr n = (((Nat.digits 10 n).map Nat.digitChar).reverse).asString := by
  rw [Nat.repr, Nat.toDigits,
    toDigitsCore_eq_digits (n + 1) n [] hn (Nat.lt_succ_self n)]
  simp

theorem digitChar_inj_of_lt :
    ∀ a < 10, ∀ b < 10, Nat.digitChar a = Nat.digitChar b → a = b := by decide

theorem map_digitChar_inj :
    ∀ l1 l2 : List ℕ, (∀ x ∈ l1, x < 10) → (∀ x ∈ l2, x < 10) →
      l1.map Nat.digitChar = l2.map Nat.digitChar → l1 = l2 := by
  intro l1
  induction l1 with
  | nil => intro l2 _ _ h; cases l2 <;> simp_all
  | cons a l ih =>
    intro l2 h1 h2 h
    cases l2 with
    | nil => simp_all
    | cons b l' =>
      simp only [List.map_cons, List.cons.injEq] at h
      have ha : a < 10 := h1 a (List.mem_cons_self a l)
      have hb : b < 10 := h2 b (List.mem_cons_self b l')
      have hab : a = b := digitChar_inj_of_lt a ha b hb h.1
      have htl : l = l' := by
        refine ih l' (fun x hx => h1 x (List.mem_cons_of_mem a hx))
          (fun x hx => h2 x (List.mem_cons_of_mem b hx)) h.2
      rw [hab, htl]

theorem asString_inj (l1 l2 : List Char) (h : l1.asString = l2.asString) :
    l1 = l2 := by
  simpa [List.asString] using congrArg String.data h

theorem repr_injective : Function.Injective Nat.repr := by
  intro m n h
  rcases Nat.eq_zero_or_pos m with hm | hm <;>
    rcases Nat.eq_zero_or_pos n with hn | hn
  · omega
  · exfalso
    rw [hm, repr_eq_digits n hn] at h
    have hd := asString_inj _ _ h.symm
    have : (Nat.digits 10 n).map Nat.digitChar = ['0'] := by
      have := congrArg List.reverse hd
      simpa using this
    have hdig : Nat.digits 10 n = [0] := by
      refine map_digitChar_inj (Nat.digits 10 n) [0]
        (fun x hx => Nat.digits_lt_base (by norm_num) hx) (by simp) ?_
      simpa using this
    have := Nat.ofDigits_digits 10 n
    rw [hdig] at this
    simp [Nat.ofDigits] at this
    omega
  · exfalso
    rw [hn, repr_eq_digits m hm] at h
    have hd := asString_inj _ _ h
    have : (Nat.digits 10 m).map Nat.digitChar = ['0'] := by
      have := congrArg List.reverse hd
      simpa using this
    have hdig : Nat.digits 10 m = [0] := by
      refine map_digitChar_inj (Nat.digits 10 m) [0]
        (fun x hx => Nat.digits_lt_base (by norm_num) hx) (by simp) ?_
      simpa using this
    have := Nat.ofDigits_digits 10 m
    rw [hdig] at this
    simp [Nat.ofDigits] at this
    omega
  · rw [repr_eq_digits m hm, repr_eq_digits n hn] at h
    have hd := asString_inj _ _ h
    have hmap : (Nat.digits 10 m).map Nat.digitChar =
        (Nat.digits 10 n).map Nat.digitChar := by
      have := congrArg List.reverse hd
      simpa using this
    have hdig : Nat.digits 10 m = Nat.digits 10 n :=
      map_digitChar_inj _ _ (fun x hx => Nat.digits_lt_base (by norm_num) hx)
        (fun x hx => Nat.digits_lt_base (by norm_num) hx) hmap
    calc m = Nat.ofDigits 10 (Nat.digits 10 m) := (Nat.ofDigits_digits 10 m).symm
    _ = Nat.ofDigits 10 (Nat.digits 10 n) := by rw [hdig]
    _ = n := Nat.ofDigits_digits 10 n

/-! ### Facts about effect construction and sequences of adds -/

theorem newOverlayEffect_id (ty : EffectType) (now : ℕ) :
    (newOverlayEffect ty now).id = Nat.repr now := by
  cases ty <;> rfl

theorem newOverlayEffect_opacity (ty : EffectType) (now : ℕ) :
    (newOverlayEffect ty now).opacity = 8/10 := by
  cases ty <;> rfl

theorem addCalls_overlayEffects (calls : List (EffectType × ℕ))
    (s : CreatorState) :
    (addCalls calls s).overlayEffects =
      s.overlayEffects ++ calls.map (fun c => newOverlayEffect c.1 c.2) := by
  induction calls generalizing s with
  | nil => simp [addCalls]
  | cons c cs ih =>
    have : addCalls (c :: cs) s = addCalls cs (addOverlayEffect c.1 c.2 s) := rfl
    rw [this, ih]
    simp [addOverlayEffect]

/-- C4 counterexample: two adds observing the same millisecond clock value
(`Date.now()` has millisecond resolution) produce two effects with equal
ids, so N adds need not give N pairwise-distinct ids. -/
theorem vid_c4_counterexample :
    (addCalls [(EffectType.text, 1000), (EffectType.shape, 1000)]
      initialState).overlayEffects.length = 2 ∧
    ¬ ((addCalls [(EffectType.text, 1000), (EffectType.shape, 1000)]
        initialState).overlayEffects.map (fun e => e.id)).Nodup := by
  decide

/-- C4 (amended): a sequence of N `addOverlayEffect` calls whose observed
`Date.now()` clock values are pairwise distinct yields a list of N effects
with N pairwise-distinct ids. -/
theorem vid_c4 (calls : List (EffectType × ℕ))
    (h : (calls.map Prod.snd).Nodup) :
    (addCalls calls initialState).overlayEffects.length = calls.length ∧
    ((addCalls calls initialState).overlayEffects.map
      (fun e => e.id)).Nodup := by
  rw [addCalls_overlayEffects]
  constructor
  · simp [initialState]
  · have hid : (calls.map (fun c => newOverlayEffect c.1 c.2)).map
        (fun e => e.id) = (calls.map Prod.snd).map Nat.repr := by
      simp only [List.map_map]
      exact List.map_congr_left fun c _ => newOverlayEffect_id c.1 c.2
    simp only [initialState, List.nil_append, hid]
    exact h.map repr_injective

/-- C4 witness: two adds at distinct clock values 3 and 12. -/
theorem vid_c4_witness :
    (([(EffectType.text, 3), (EffectType.sparkle, 12)].map Prod.snd).Nodup) ∧
    ((addCalls [(EffectType.text, 3), (EffectType.sparkle, 12)]
        initialState).overlayEffects.length = 2 ∧
      ((addCalls [(EffectType.text, 3), (EffectType.sparkle, 12)]
          initialState).overlayEffects.map (fun e => e.id)).Nodup) :=
  ⟨by decide, vid_c4 [(EffectType.text, 3), (EffectType.sparkle, 12)] (by decide)⟩

/-! ### Baseline opacity -/

/-- C5 counterexample: `updateEffect` performs no clamping, so the state
reached from the initial state by one add and one `updateEffect` carrying
`opacity := 2` stores a baseline opacity outside `[0,1]`. -/
theorem vid_c5_counterexample :
    ((applyOps initialState
        [EffectOp.add EffectType.text 7,
         EffectOp.update "7" { opacity := some 2 }]).overlayEffects.map
      (fun e => e.opacity)) = [2] ∧ ¬ ((2 : ℚ) ≤ 1) := by
  decide

theorem applyOp_opacityInRange (s : CreatorState) (op : EffectOp)
    (hs : opacityInRange s) (hop : opUpdatesInRange op) :
    opacityInRange (applyOp s op) := by
  cases op with
  | add ty now =>
    constructor
    · intro e he
      simp only [applyOp, addOverlayEffect, List.mem_append,
        List.mem_singleton] at he
      rcases he with he | he
      · exact hs.1 e he
      · rw [he, newOverlayEffect_opacity]; norm_num
    · intro e he
      simp only [applyOp, addOverlayEffect, Option.some.injEq] at he
      rw [← he, newOverlayEffect_opacity]; norm_num
  | update id u =>
    constructor
    · intro e he
      simp only [applyOp, updateEffect, List.mem_map] at he
      obtain ⟨a, ha, rfl⟩ := he
      by_cases hid : a.id = id
      · rw [if_pos hid]
        show 0 ≤ (applyUpdates a u).opacity ∧ (applyUpdates a u).opacity ≤ 1
        cases hu : u.opacity with
        | none => simpa [applyUpdates, hu] using hs.1 a ha
        | some v => simpa [applyUpdates, hu] using hop v hu
      · rw [if_neg hid]
        exact hs.1 a ha
    · intro e he
      simp only [applyOp, updateEffect] at he
      cases hsel : s.selectedEffect with
      | none => rw [hsel] at he; simp at he
      | some sel =>
        rw [hsel] at he
        by_cases hid : sel.id = id
        · simp only [hid, if_true, eq_self_iff_true, Option.some.injEq] at he
          rw [← he]
          cases hu : u.opacity with
          | none => simpa [applyUpdates, hu] using hs.2 sel hsel
          | some v => simpa [applyUpdates, hu] using hop v hu
        · simp only [hid, if_false, Option.some.injEq] at he
          rw [← he]
          exact hs.2 sel hsel
  | remove id =>
    constructor
    · intro e he
      simp only [applyOp, removeEffect] at he
      exact hs.1 e (List.mem_of_mem_filter he)
    · intro e he
      simp only [applyOp, removeEffect] at he
      cases hsel : s.selectedEffect with
      | none => rw [hsel] at he; simp at he
      | some sel =>
        rw [hsel] at he
        by_cases hid : sel.id = id
        · simp only [hid, if_true, eq_self_iff_true] at he
          exact absurd he (by simp)
        · simp only [hid, if_false, Option.some.injEq] at he
          rw [← he]
          exact hs.2 sel hsel

/-- C5 (amended): the stored baseline opacity stays in `[0,1]` along every
operation sequence in which each `updateEffect` payload that carries an
opacity keeps it inside `[0,1]` — the adds set the in-range default `0.8`,
but `updateEffect` itself never clamps, so out-of-range payloads are stored
verbatim. -/
theorem vid_c5 (ops : List EffectOp) (s : CreatorState)
    (hs : opacityInRange s) (hops : ∀ op ∈ ops, opUpdatesInRange op) :
    opacityInRange (applyOps s ops) := by
  induction ops generalizing s with
  | nil => simpa [applyOps] using hs
  | cons op ops ih =>
    have hstep : applyOps s (op :: ops) = applyOps (applyOp s op) ops := rfl
    rw [hstep]
    exact ih (applyOp s op)
      (applyOp_opacityInRange s op hs (hops op (List.mem_cons_self op ops)))
      (fun o ho => hops o (List.mem_cons_of_mem op ho))

/-- C5 witness: an in-range update sequence from the initial state. -/
theorem vid_c5_witness :
    opacityInRange initialState ∧
    (∀ op ∈ [EffectOp.add EffectType.shape 5,
             EffectOp.update "5" { opacity := some (1/2) }],
       opUpdatesInRange op) ∧
    opacityInRange (applyOps initialState
      [EffectOp.add EffectType.shape 5,
       EffectOp.update "5" { opacity := some (1/2) }]) := by
  have h1 : opacityInRange initialState := by
    constructor
    · intro e he; simp [initialState] at he
    · intro e he; simp [initialState] at he
  have h2 : ∀ op ∈ [EffectOp.add EffectType.shape 5,
      EffectOp.update "5" { opacity := some (1/2) }], opUpdatesInRange op := by
    intro op hop
    rcases List.mem_cons.mp hop with rfl | hop2
    · trivial
    rcases List.mem_cons.mp hop2 with rfl | hop3
    · intro v hv
      simp only [Option.some.injEq] at hv
      rw [← hv]
      norm_num
    · simp at hop3
  exact ⟨h1, h2, vid_c5 _ initialState h1 h2⟩

/-! ### Removal -/

theorem remove_filter_decomp (id : String) :
    ∀ l : List (OverlayEffect ℚ), l.countP (fun e => e.id = id) = 1 →
      ∃ l1 e l2, l = l1 ++ e :: l2 ∧ e.id = id ∧
        (∀ x ∈ l1, x.id ≠ id) ∧ (∀ x ∈ l2, x.id ≠ id) ∧
        l.filter (fun e => e.id ≠ id) = l1 ++ l2 := by
  intro l
  induction l with
  | nil => intro h; simp [List.countP_nil] at h
  | cons a l ih =>
    intro h
    rw [List.countP_cons] at h
    by_cases ha : a.id = id
    · have hcnt : l.countP (fun e => e.id = id) = 0 := by
        simp only [ha, decide_True, if_true] at h; omega
      have hall : ∀ x ∈ l, x.id ≠ id := by
        intro x hx
        have := List.countP_eq_zero.mp hcnt x hx
        simpa using this
      refine ⟨[], a, l, by simp, ha, by simp, hall, ?_⟩
      have hfl : l.filter (fun e => e.id ≠ id) = l :=
        List.filter_eq_self.mpr fun x hx => by simpa using hall x hx
      have hfalse : decide (a.id ≠ id) = false := by simp [ha]
      rw [List.filter_cons, hfalse]
      simpa using hfl
    · have hcnt : l.countP (fun e => e.id = id) = 1 := by
        simp only [ha, decide_False, Bool.false_eq_true, if_false,
          Nat.add_zero] at h
        exact h
      obtain ⟨l1, e, l2, hl, he, h1, h2, hf⟩ := ih hcnt
      refine ⟨a :: l1, e, l2, by rw [hl]; rfl, he, ?_, h2, ?_⟩
      · intro x hx
        rcases List.mem_cons.mp hx with rfl | hx1
        · exact ha
        · exact h1 x hx1
      · have hstep : (a :: l).filter (fun e => e.id ≠ id) =
            a :: l.filter (fun e => e.id ≠ id) := by
          simp [List.filter_cons, ha]
        rw [hstep, hf]
        rfl

/-- C8: when an id occurs exactly once in the effect list, `removeEffect`
removes exactly that entry (keeping the rest in order), shrinks the list by
one, clears a selection that referenced the id, and leaves any other
selection unchanged. -/
theorem vid_c8 (s : CreatorState) (id : String)
    (h : s.overlayEffects.countP (fun e => e.id = id) = 1) :
    ∃ l1 e l2,
      s.overlayEffects = l1 ++ e :: l2 ∧ e.id = id ∧
      (removeEffect id s).overlayEffects = l1 ++ l2 ∧
      (removeEffect id s).overlayEffects.length + 1 = s.overlayEffects.length ∧
      (∀ sel, s.selectedEffect = some sel → sel.id = id →
        (removeEffect id s).selectedEffect = Option.none) ∧
      (∀ sel, s.selectedEffect = some sel → sel.id ≠ id →
        (removeEffect id s).selectedEffect = some sel) := by
  obtain ⟨l1, e, l2, hl, he, h1, h2, hf⟩ :=
    remove_filter_decomp id s.overlayEffects h
  have hre : (removeEffect id s).overlayEffects = l1 ++ l2 := by
    simpa [removeEffect] using hf
  refine ⟨l1, e, l2, hl, he, hre, ?_, ?_, ?_⟩
  · rw [hre, hl]; simp [List.length_append]; omega
  · intro sel hsel hid
    simp [removeEffect, hsel, hid]
  · intro sel hsel hid
    simp [removeEffect, hsel, hid]

/-- C8 witness: a state holding effects with ids "1" and "2", selection on
id "2"; removing id "1" keeps the selection. -/
theorem vid_c8_witness :
    (applyOps initialState [EffectOp.add EffectType.text 1,
        EffectOp.add EffectType.shape 2]).overlayEffects.countP
      (fun e => e.id = "1") = 1 ∧
    (∃ l1 e l2,
      (applyOps initialState [EffectOp.add EffectType.text 1,
          EffectOp.add EffectType.shape 2]).overlayEffects = l1 ++ e :: l2 ∧
      e.id = "1" ∧
      (removeEffect "1" (applyOps initialState
          [EffectOp.add EffectType.text 1,
           EffectOp.add EffectType.shape 2])).overlayEffects = l1 ++ l2 ∧
      (removeEffect "1" (applyOps initialState
          [EffectOp.add EffectType.text 1,
           EffectOp.add EffectType.shape 2])).overlayEffects.length + 1 =
        (applyOps initialState [EffectOp.add EffectType.text 1,
            EffectOp.add EffectType.shape 2]).overlayEffects.length ∧
      (∀ sel, (applyOps initialState [EffectOp.add EffectType.text 1,
            EffectOp.add EffectType.shape 2]).selectedEffect = some sel →
          sel.id = "1" →
        (removeEffect "1" (applyOps initialState
            [EffectOp.add EffectType.text 1,
             EffectOp.add EffectType.shape 2])).selectedEffect =
          Option.none) ∧
      (∀ sel, (applyOps initialState [EffectOp.add EffectType.text 1,
            EffectOp.add EffectType.shape 2]).selectedEffect = some sel →
          sel.id ≠ "1" →
        (removeEffect "1" (applyOps initialState
            [EffectOp.add EffectType.text 1,
             EffectOp.add EffectType.shape 2])).selectedEffect = some sel)) :=
  ⟨by decide,
   vid_c8 (applyOps initialState [EffectOp.add EffectType.text 1,
     EffectOp.add EffectType.shape 2]) "1" (by decide)⟩

/-! ### Update -/

/-- C10: `updateEffect(id, updates)` maps the spread over exactly the
entries carrying `id`: length and order are preserved, entries with a
different id are returned unchanged, a list without the id is unchanged as a
whole, and a selection referencing `id` receives the same spread (so a
selection equal to its list entry stays equal to it). -/
theorem vid_c10 (s : CreatorState) (id : String) (u : EffectUpdates) :
    ((updateEffect id u s).overlayEffects.length =
      s.overlayEffects.length) ∧
    (∀ i : ℕ, (updateEffect id u s).overlayEffects[i]? =
      s.overlayEffects[i]?.map
        (fun e => if e.id = id then applyUpdates e u else e)) ∧
    ((∀ e ∈ s.overlayEffects, e.id ≠ id) →
      (updateEffect id u s).overlayEffects = s.overlayEffects) ∧
    (∀ (i : ℕ) (e : OverlayEffect ℚ), s.overlayEffects[i]? = some e →
      e.id ≠ id → (updateEffect id u s).overlayEffects[i]? = some e) ∧
    (∀ (i : ℕ) (e : OverlayEffect ℚ), s.overlayEffects[i]? = some e →
      e.id = id →
      (updateEffect id u s).overlayEffects[i]? = some (applyUpdates e u)) ∧
    (∀ sel, s.selectedEffect = some sel → sel.id = id →
      (updateEffect id u s).selectedEffect = some (applyUpdates sel u)) ∧
    (∀ sel, s.selectedEffect = some sel → sel.id ≠ id →
      (updateEffect id u s).selectedEffect = some sel) := by
  refine ⟨?_, ?_, ?_, ?_, ?_, ?_, ?_⟩
  · simp [updateEffect]
  · intro i
    simp [updateEffect, List.getElem?_map]
  · intro hnone
    simp only [updateEffect]
    have : s.overlayEffects.map
        (fun e => if e.id = id then applyUpdates e u else e) =
        s.overlayEffects.map (fun e => e) := by
      refine List.map_congr_left fun e he => ?_
      rw [if_neg (hnone e he)]
    rw [this, List.map_id']
  · intro i e hi hid
    simp [updateEffect, List.getElem?_map, hi, hid]
  · intro i e hi hid
    simp [updateEffect, List.getElem?_map, hi, hid]
  · intro sel hsel hid
    simp [updateEffect, hsel, hid]
  · intro sel hsel hid
    simp [updateEffect, hsel, hid]

/-- C10 witness: a one-effect state; an update keyed by a missing id leaves
the list unchanged, and an update keyed by the stored id rewrites the
selection with the same spread. -/
theorem vid_c10_witness :
    (CreatorState.overlayEffects (updateEffect "nope" { x := some 25 }
        (applyOps initialState [EffectOp.add EffectType.shape 9])) =
      CreatorState.overlayEffects
        (applyOps initialState [EffectOp.add EffectType.shape 9])) ∧
    (CreatorState.selectedEffect (updateEffect "9" { x := some 25 }
        (applyOps initialState [EffectOp.add EffectType.shape 9])) =
      some (applyUpdates (newOverlayEffect EffectType.shape 9)
        { x := some 25 })) := by
  constructor
  · exact (vid_c10 (applyOps initialState [EffectOp.add EffectType.shape 9])
      "nope" { x := some 25 }).2.2.1 (by decide)
  · exact (vid_c10 (applyOps initialState [EffectOp.add EffectType.shape 9])
      "9" { x := some 25 }).2.2.2.2.2.1 (newOverlayEffect EffectType.shape 9)
      rfl (by decide)

/-! ### Pre-flight validation of `generateVideo` -/

/-- C9: with either upload absent, `generateVideo` returns immediately with
only the missing-input error toast: the state is unchanged (in particular
the generation flag, progress, history and generated video), and no capture
(decode/render/encode) is started. -/
theorem vid_c9 (env : CaptureEnv) (now : ℕ) (s : CreatorState)
    (h : s.selectedImage = false ∨ s.selectedAudio = false) :
    generateVideo env now s = (s, [GenEvent.toastErrorMissing]) ∧
    GenEvent.captureRun ∉ (generateVideo env now s).2 ∧
    (generateVideo env now s).1 = s := by
  have hcond : (¬ s.selectedImage ∨ ¬ s.selectedAudio) := by
    rcases h with h | h <;> simp [h]
  have heq : generateVideo env now s = (s, [GenEvent.toastErrorMissing]) := by
    unfold generateVideo
    rw [if_pos hcond]
  refine ⟨heq, ?_, by rw [heq]⟩
  rw [heq]
  simp

/-- C9 witness: the initial state has no uploads, so generation fails
pre-flight for any environment. -/
theorem vid_c9_witness :
    (initialState.selectedImage = false ∨ initialState.selectedAudio = false) ∧
    (generateVideo ⟨true, true, some 1, []⟩ 0 initialState =
        (initialState, [GenEvent.toastErrorMissing]) ∧
      GenEvent.captureRun ∉
        (generateVideo ⟨true, true, some 1, []⟩ 0 initialState).2 ∧
      (generateVideo ⟨true, true, some 1, []⟩ 0 initialState).1 =
        initialState) :=
  ⟨Or.inl rfl, vid_c9 ⟨true, true, some 1, []⟩ 0 initialState (Or.inl rfl)⟩

/-! ### The capture run's resolution value -/

/-- C1 counterexample: when the recorder emits no data before stopping, the
run still resolves — with a zero-byte artifact — because `onstop`
unconditionally assembles whatever chunks were pushed; there is no
no-data guard. -/
theorem vid_c1_counterexample :
    createVideoWithAudio ⟨true, true, some 5, []⟩ =
      Except.ok { videoBlobSize := 0, duration := 5 } := rfl

/-- C1 (amended): for every valid input pair (context obtained, image
loads, audio decodes to duration `d`) the run resolves with duration
exactly `d` (well within one tick interval) and with byte size the sum of
the positive-size chunks the encoder emitted; the size is positive whenever
at least one nonempty chunk was emitted, but nothing rules out a zero-byte
resolution when the encoder emits no data.  Invalid inputs reject with a
tagged error. -/
theorem vid_c1 (env : CaptureEnv) (d : ℚ) (h1 : env.ctxAvailable = true)
    (h2 : env.imageLoads = true) (h3 : env.decodedDuration = some d) :
    createVideoWithAudio env =
      Except.ok { videoBlobSize := (env.chunkSizes.filter fun c => 0 < c).sum,
                  duration := d } ∧
    ((∃ c ∈ env.chunkSizes, 0 < c) →
      0 < (env.chunkSizes.filter fun c => 0 < c).sum) := by
  constructor
  · simp [createVideoWithAudio, h1, h2, h3]
  · rintro ⟨c, hc, hcpos⟩
    have hmem : c ∈ env.chunkSizes.filter fun c => 0 < c :=
      List.mem_filter.mpr ⟨hc, by simpa using hcpos⟩
    have hle : c ≤ (env.chunkSizes.filter fun c => 0 < c).sum :=
      List.single_le_sum (fun x _ => Nat.zero_le x) c hmem
    omega

/-- C1 witness: a run whose encoder emits one 3-byte chunk. -/
theorem vid_c1_witness :
    createVideoWithAudio ⟨true, true, some 5, [3]⟩ =
      Except.ok { videoBlobSize := (([3] : List ℕ).filter fun c => 0 < c).sum,
                  duration := 5 } ∧
    ((∃ c ∈ ([3] : List ℕ), 0 < c) →
      0 < (([3] : List ℕ).filter fun c => 0 < c).sum) :=
  vid_c1 ⟨true, true, some 5, [3]⟩ 5 rfl rfl rfl

/-! ### Ordering and termination of the capture loop -/

theorem captureEvents_eq (D Δ : ℚ) :
    captureEvents D Δ = CaptureEvent.startEncoder :: CaptureEvent.startAudio ::
      ((List.range (stopTickIndex D Δ)).map
          (fun k : ℕ => CaptureEvent.tick ((k : ℚ) * Δ))
        ++ [CaptureEvent.stopEncoder ((stopTickIndex D Δ : ℚ) * Δ)]) := rfl

/-- C2: the encoder start precedes the audio start, which precedes every
render tick; every render tick happens strictly before `totalDuration`; the
stop is issued exactly once, at the first elapsed value `≥ totalDuration`,
which is less than `totalDuration` plus one tick interval. -/
theorem vid_c2 (D Δ : ℚ) (hD : 0 < D) (hΔ : 0 < Δ) : captureOrderingOk D Δ := by
  have hceil : (0:ℤ) < ⌈D / Δ⌉ := Int.ceil_pos.mpr (div_pos hD hΔ)
  have hNZ : ((stopTickIndex D Δ : ℕ) : ℤ) = ⌈D / Δ⌉ := by
    rw [stopTickIndex]; exact Int.toNat_of_nonneg hceil.le
  have hNQ : ((stopTickIndex D Δ : ℕ) : ℚ) = ((⌈D / Δ⌉ : ℤ) : ℚ) := by
    exact_mod_cast hNZ
  unfold captureOrderingOk
  refine ⟨by rw [captureEvents_eq]; simp,
    by rw [captureEvents_eq]; simp, ?_, ?_, ?_, ?_⟩
  · intro i t h
    rcases i with _ | (_ | i)
    · rw [captureEvents_eq] at h; simp at h
    · rw [captureEvents_eq] at h; simp at h
    · omega
  · intro t ht
    rw [captureEvents_eq] at ht
    rcases List.mem_cons.mp ht with h | ht2
    · exact absurd h (by simp)
    rcases List.mem_cons.mp ht2 with h | ht3
    · exact absurd h (by simp)
    rcases List.mem_append.mp ht3 with h | h
    · obtain ⟨k, hk, hkt⟩ := List.mem_map.mp h
      have hkr : k < stopTickIndex D Δ := List.mem_range.mp hk
      obtain rfl : (k : ℚ) * Δ = t := by simpa using hkt
      refine ⟨mul_nonneg (Nat.cast_nonneg k) hΔ.le, ?_⟩
      have hk1 : (k : ℤ) < ⌈D / Δ⌉ := by
        rw [stopTickIndex] at hkr
        exact Int.lt_toNat.mp hkr
      have hk2 : (k : ℚ) < D / Δ := by
        exact_mod_cast Int.lt_ceil.mp hk1
      exact (lt_div_iff₀ hΔ).mp hk2
    · rw [List.mem_singleton] at h
      exact absurd h (by simp)
  · have hmap : ((List.range (stopTickIndex D Δ)).map
        (fun k : ℕ => CaptureEvent.tick ((k : ℚ) * Δ))).countP isStopEvent = 0 := by
      rw [List.countP_eq_zero]
      intro e he
      simp only [List.mem_map] at he
      obtain ⟨k, _, rfl⟩ := he
      simp [isStopEvent]
    rw [captureEvents_eq]
    rw [List.countP_cons, List.countP_cons, List.countP_append, hmap]
    simp [isStopEvent]
  · intro t ht
    rw [captureEvents_eq] at ht
    rcases List.mem_cons.mp ht with h | ht2
    · exact absurd h (by simp)
    rcases List.mem_cons.mp ht2 with h | ht3
    · exact absurd h (by simp)
    rcases List.mem_append.mp ht3 with h | h
    · obtain ⟨k, _, hkt⟩ := List.mem_map.mp h
      exact absurd hkt (by simp)
    · rw [List.mem_singleton] at h
      obtain rfl : ((stopTickIndex D Δ : ℕ) : ℚ) * Δ = t := by
        simpa [eq_comm] using h
      constructor
      · have hle : D / Δ ≤ ((⌈D / Δ⌉ : ℤ) : ℚ) := Int.le_ceil (D / Δ)
        rw [← hNQ] at hle
        exact (div_le_iff₀ hΔ).mp hle
      · have hlt : ((⌈D / Δ⌉ : ℤ) : ℚ) < D / Δ + 1 := Int.ceil_lt_add_one (D / Δ)
        rw [← hNQ] at hlt
        calc ((stopTickIndex D Δ : ℕ) : ℚ) * Δ < (D / Δ + 1) * Δ :=
              mul_lt_mul_of_pos_right hlt hΔ
          _ = D + Δ := by rw [add_mul, one_mul, div_mul_cancel₀ D hΔ.ne']

/-- C2 witness: the spec's scenario, `totalDuration = 5`, tick interval
`1/30`. -/
theorem vid_c2_witness :
    (0:ℚ) < 5 ∧ (0:ℚ) < 1/30 ∧ captureOrderingOk 5 (1/30) :=
  ⟨by norm_num, by norm_num, vid_c2 5 (1/30) (by norm_num) (by norm_num)⟩

/-! ### Flash overlay -/

theorem sin_three_pi_div_two : Real.sin (3 * Real.pi / 2) = -1 := by
  have h : (3 : ℝ) * Real.pi / 2 = Real.pi / 2 + Real.pi := by ring
  rw [h, Real.sin_add_pi, Real.sin_pi_div_two]

/-- C3 counterexample: at `elapsed = 3`, `totalDuration = 16` the gate
`elapsed % 0.5 < 0.25` holds and the flash fill is drawn, but the requested
alpha is `sin(8π·(3/16))·0.1 = sin(3π/2)·0.1 = -0.1`, not the claimed
`|sin(8π·progress)|·0.1 = 0.1`: the source takes no absolute value. -/
theorem vid_c3_counterexample :
    DrawCmd.flashFill (3/16) ∈ renderFrame 3 16 ∧
    flashFillAlpha (3/16) = -(1/10) ∧
    specFlashAlpha (3/16) = 1/10 ∧
    flashFillAlpha (3/16) ≠ specFlashAlpha (3/16) := by
  have hgate : jsModQ 3 (1/2) < 1/4 := by norm_num [jsModQ, qtrunc]
  have harg : ((3/16 : ℚ) : ℝ) * Real.pi * 8 = 3 * Real.pi / 2 := by
    push_cast; ring
  have harg2 : 8 * Real.pi * ((3/16 : ℚ) : ℝ) = 3 * Real.pi / 2 := by
    push_cast; ring
  have h1 : flashFillAlpha (3/16) = -(1/10) := by
    rw [flashFillAlpha, harg, sin_three_pi_div_two]; norm_num
  have h2 : specFlashAlpha (3/16) = 1/10 := by
    rw [specFlashAlpha, harg2, sin_three_pi_div_two]; norm_num
  refine ⟨?_, h1, h2, ?_⟩
  · simp only [renderFrame]
    rw [if_pos hgate]
    simp
  · rw [h1, h2]; norm_num

/-- C3 (amended): on every frame whose elapsed time satisfies
`(elapsed mod 0.5) < 0.25` the renderer fills the whole canvas with white at
alpha `sin(8π·progress)·0.1` — signed, without the absolute value, so it is
negative for half of each progress cycle — and on frames failing the gate no
flash fill is drawn. -/
theorem vid_c3 (elapsed D : ℚ) :
    (jsModQ elapsed (1/2) < 1/4 →
      renderFrame elapsed D =
        [DrawCmd.clear, DrawCmd.background (elapsed / D),
         DrawCmd.flashFill (elapsed / D), DrawCmd.overlays elapsed]) ∧
    (¬ jsModQ elapsed (1/2) < 1/4 →
      ∀ p : ℚ, DrawCmd.flashFill p ∉ renderFrame elapsed D) ∧
    (∀ p : ℚ, flashFillAlpha p = Real.sin (8 * Real.pi * (p : ℝ)) * (1/10)) := by
  refine ⟨?_, ?_, ?_⟩
  · intro h
    simp only [renderFrame]
    rw [if_pos h]
    rfl
  · intro h p hp
    simp only [renderFrame] at hp
    rw [if_neg h] at hp
    simp at hp
  · intro p
    rw [flashFillAlpha]
    have : ((p : ℝ)) * Real.pi * 8 = 8 * Real.pi * (p : ℝ) := by ring
    rw [this]

/-- C3 witness: the gate holds at elapsed `0` (flash drawn) and fails at
elapsed `3/10` (no flash drawn). -/
theorem vid_c3_witness :
    renderFrame 0 5 = [DrawCmd.clear, DrawCmd.background (0/5),
      DrawCmd.flashFill (0/5), DrawCmd.overlays 0] ∧
    (∀ p : ℚ, DrawCmd.flashFill p ∉ renderFrame (3/10) 5) := by
  constructor
  · exact (vid_c3 0 5).1 (by norm_num [jsModQ, qtrunc])
  · exact (vid_c3 (3/10) 5).2.1 (by norm_num [jsModQ, qtrunc])

/-! ### Pulse animation -/

/-- C6: with the Pulse animation and `phase = (t mod 3)/3`, the animated
opacity is `0.7 + 0.3·sin(2π·phase)` — hence `1` at phase `1/4` and `0.4`
at phase `3/4` — and a present nonzero size is scaled by
`0.9 + 0.2·sin(2π·phase)`, so size 50 becomes 55 at phase `1/4`. -/
theorem vid_c6 (e : OverlayEffect ℝ) (t : ℝ)
    (h : e.animation = some AnimKind.pulse) :
    ((applyEffectAnimation e t).opacity =
      7/10 + 3/10 * Real.sin (2 * Real.pi * (jsModR t 3 / 3))) ∧
    (∀ s : ℝ, e.size = some s → s ≠ 0 →
      (applyEffectAnimation e t).size =
        some (s * (9/10 + 2/10 * Real.sin (2 * Real.pi * (jsModR t 3 / 3))))) ∧
    (jsModR t 3 / 3 = 1/4 → (applyEffectAnimation e t).opacity = 1) ∧
    (jsModR t 3 / 3 = 3/4 → (applyEffectAnimation e t).opacity = 2/5) ∧
    (jsModR t 3 / 3 = 1/4 → e.size = some 50 →
      (applyEffectAnimation e t).size = some 55) := by
  have harg : jsModR t 3 / 3 * Real.pi * 2 =
      2 * Real.pi * (jsModR t 3 / 3) := by ring
  have hop : (applyEffectAnimation e t).opacity =
      7/10 + 3/10 * Real.sin (2 * Real.pi * (jsModR t 3 / 3)) := by
    simp only [applyEffectAnimation, h]
    cases hsz : e.size with
    | none => simp [harg]
    | some s => by_cases hs : s = 0 <;> simp [hs, harg]
  have hsize : ∀ s : ℝ, e.size = some s → s ≠ 0 →
      (applyEffectAnimation e t).size =
        some (s * (9/10 + 2/10 * Real.sin (2 * Real.pi * (jsModR t 3 / 3)))) := by
    intro s hs hs0
    simp only [applyEffectAnimation, h, hs]
    simp [hs0, harg]
  refine ⟨hop, hsize, ?_, ?_, ?_⟩
  · intro hp
    rw [hop, hp]
    have hq : (2:ℝ) * Real.pi * (1/4) = Real.pi / 2 := by ring
    rw [hq, Real.sin_pi_div_two]
    norm_num
  · intro hp
    rw [hop, hp]
    have hq : (2:ℝ) * Real.pi * (3/4) = 3 * Real.pi / 2 := by ring
    rw [hq, sin_three_pi_div_two]
    norm_num
  · intro hp hs50
    rw [hsize 50 hs50 (by norm_num), hp]
    have hq : (2:ℝ) * Real.pi * (1/4) = Real.pi / 2 := by ring
    rw [hq, Real.sin_pi_div_two]
    norm_num

/-- C6 witness: the spec's shape effect, default size 50, Pulse animation,
observed at `t = 3/4` seconds, i.e. phase `1/4`. -/
theorem vid_c6_witness :
    (({ type := EffectType.shape, id := "1", x := 50, y := 50,
        opacity := 8/10, shape := some ShapeKind.circle, size := some 50,
        animation := some AnimKind.pulse } : OverlayEffect ℝ).animation =
      some AnimKind.pulse) ∧
    (applyEffectAnimation
      { type := EffectType.shape, id := "1", x := 50, y := 50,
        opacity := 8/10, shape := some ShapeKind.circle, size := some 50,
        animation := some AnimKind.pulse } (3/4)).opacity = 1 ∧
    (applyEffectAnimation
      { type := EffectType.shape, id := "1", x := 50, y := 50,
        opacity := 8/10, shape := some ShapeKind.circle, size := some 50,
        animation := some AnimKind.pulse } (3/4)).size = some 55 := by
  have hphase : jsModR (3/4 : ℝ) 3 / 3 = 1/4 := by
    rw [jsModR, rtrunc]
    norm_num
  have h := vid_c6
    { type := EffectType.shape, id := "1", x := 50, y := 50,
      opacity := 8/10, shape := some ShapeKind.circle, size := some 50,
      animation := some AnimKind.pulse } (3/4) rfl
  exact ⟨rfl, h.2.2.1 hphase, h.2.2.2.2 hphase rfl⟩

/-! ### Purity of the animation evaluator -/

/-- C7: one `applyEffectAnimation` call leaves the argument object exactly
as it was, returns the value of the pure evaluator, and — because the input
is unchanged — an immediately repeated call on the same `(effect, t)` pair
produces the identical call footprint, hence identical output. -/
theorem vid_c7 (e : OverlayEffect ℝ) (t : ℝ) :
    (applyEffectAnimationCall e t).effectAfter = e ∧
    (applyEffectAnimationCall e t).ret = applyEffectAnimation e t ∧
    applyEffectAnimationCall ((applyEffectAnimationCall e t).effectAfter) t =
      applyEffectAnimationCall e t := by
  have h1 : (applyEffectAnimationCall e t).effectAfter = e := by
    rw [applyEffectAnimationCall]
    by_cases hc : e.animation = Option.none ∨ e.animation = some AnimKind.none
    · rw [if_pos hc]
    · rw [if_neg hc]
      rcases ha : e.animation with _ | a
      · exact absurd (Or.inl ha) hc
      · cases a with
        | pulse =>
          cases hsz : e.size with
          | none => simp [hsz, ha]
          | some s => by_cases hs : s = 0 <;> simp [hsz, hs, ha]
        | slide => simp [ha]
        | rotate => simp [ha]
        | none => exact absurd (Or.inr ha) hc
  have h2 : (applyEffectAnimationCall e t).ret = applyEffectAnimation e t := by
    rw [applyEffectAnimationCall, applyEffectAnimation]
    by_cases hc : e.animation = Option.none ∨ e.animation = some AnimKind.none
    · rw [if_pos hc, if_pos hc]
    · rw [if_neg hc, if_neg hc]
      rcases ha : e.animation with _ | a
      · exact absurd (Or.inl ha) hc
      · cases a with
        | pulse =>
          cases hsz : e.size with
          | none => simp [hsz, ha]
          | some s => by_cases hs : s = 0 <;> simp [hsz, hs, ha]
        | slide => simp [ha]
        | rotate => simp [ha]
        | none => exact absurd (Or.inr ha) hc
  exact ⟨h1, h2, by rw [h1]⟩

end Vid
